import Mathlib

/-!
Shallow embedding of woorui/gorm-cache (src/cacher.go), the read-path
cache-aside plugin for gorm.  Go values, record types, the cacher
configuration and the two query callbacks are translated into executable
Lean definitions; external collaborators (the SQL connection pool, the
key-value store, the dialector and the std `encoding/json` package) are
modelled at their interfaces.  Machine effects (store Get/Set calls, the
underlying query execution) are made observable as an event trace.
-/

/-- Go runtime values as they appear in cached record fields.  `vFloat`
abstracts finite float64 values by an integer index; `vFloatNaN` stands for
IEEE NaN, which gorm's is-zero check treats as non-zero and which
`encoding/json` refuses to marshal. -/
inductive GoValue where
  | vNull
  | vBool (b : Bool)
  | vInt (n : Int)
  | vFloat (x : Int)
  | vFloatNaN
  | vStr (s : String)
  deriving DecidableEq, Repr

/-- A live record instance: the struct's fields in declaration order as
(field name, current value) pairs.  This is the information reflection
reads off `db.Statement.ReflectValue` elements. -/
abbrev Record := List (String × GoValue)

/-- One encoded record: the sparse field-name-to-value map built by
`queryResult` (a Go string-keyed map; entry order is
irrelevant since Go maps are unordered). -/
abbrev FieldMap := List (String × GoValue)

/-- The structured form `encoding/json` transports: one object for a struct
result, an array of objects for a slice/array result. -/
inductive Payload where
  | object (m : FieldMap)
  | arr (ms : List FieldMap)
  deriving DecidableEq, Repr

/-- Destination shapes: `db.Statement.Dest` / `ReflectValue` by reflect kind:
a struct destination, a slice/array destination (carrying the element
type's zero value as the template fresh elements decode from), or any
other unsupported kind. -/
inductive Dest where
  | single (r : Record)
  | coll (zeroElem : Record) (rs : List Record)
  | other (v : GoValue)
  deriving DecidableEq, Repr

/-- One gorm schema field: its name and the zero value of its Go type
(`field.ValueOf` reports a value together with an is-zero flag computed
against this zero value). -/
structure SchemaField where
  name : String
  zero : GoValue
  deriving DecidableEq, Repr

/-- Schema field list, `db.Statement.Schema.Fields`. -/
abbrev Schema := List SchemaField

/-- Go `error` values reaching this layer.  `gormCache` is the
`ErrGormCache` wrapper; `multi` models gorm's `AddError` combining an
existing error with a new one. -/
inductive GoErr where
  | base (msg : String)
  | gormCache (e : GoErr)
  | multi (a b : GoErr)
  deriving DecidableEq, Repr

/-- Go types as far as `structType` inspects them: named types (with their
package path and bare name), pointers, slices and arrays. -/
inductive GoType where
  | named (pkgPath : String) (nm : String)
  | ptr (t : GoType)
  | slice (t : GoType)
  | array (n : Nat) (t : GoType)
  deriving DecidableEq, Repr

/-- Models `reflect.Type.Name()`: the bare (package-less) name of a named type;
empty for pointer/slice/array composites. -/
def GoType.name : GoType → String
  | .named _ n => n
  | _ => ""

/-- Models `reflect.Type.Elem()` for pointer/slice/array types (the only kinds
`structType` calls it on). -/
def GoType.elemTy : GoType → GoType
  | .ptr t => t
  | .slice t => t
  | .array _ t => t
  | t => t

/-- The leading `for typ.Kind() == reflect.Ptr` loop of `structType`. -/
def stripPtr : GoType → GoType
  | .ptr t => stripPtr t
  | t => t

/-- The inner `for typ.Elem().Kind() == reflect.Ptr` loop of `structType`:
while the element type is a pointer, step to it. -/
def structTypeLoop : GoType → GoType
  | .ptr (.ptr t) => structTypeLoop (.ptr t)
  | .slice (.ptr t) => structTypeLoop (.ptr t)
  | .array _ (.ptr t) => structTypeLoop (.ptr t)
  | t => t

/-- Embeds `structType`: unwrap pointers; for a slice/array,
chase pointer elements and take the element type; otherwise the type
itself. -/
def structType (val : GoType) : GoType :=
  let typ := stripPtr val
  match typ with
  | .slice e => (structTypeLoop (.slice e)).elemTy
  | .array n e => (structTypeLoop (.array n e)).elemTy
  | t => t

/-- Observable side effects of processing one query: a store `Get`, a
store `Set`, or an execution of the underlying SQL query. -/
inductive Event where
  | storeGet (key : String)
  | storeSet (key : String) (value : String)
  | dbExec (sql : String)
  deriving DecidableEq, Repr

/-- Whether an event is a cache-store interaction. -/
def Event.isStore : Event → Bool
  | .storeGet _ => true
  | .storeSet _ _ => true
  | .dbExec _ => false

/-- The gorm `Statement`, restricted to what the cacher reads/writes.
`connPool` models `ConnPool.QueryContext` composed with `gorm.Scan`: for a
statement and its vars it yields (error, scanned destination, rows
affected).  `ctxNocache` models whether the nocachectx sentinel is
present in the statement context. -/
structure Statement where
  sql : String
  vars : List GoValue
  schema : Option Schema
  dest : Dest
  destGoType : GoType
  ctxNocache : Bool
  connPool : String → List GoValue → Option GoErr × Dest × Int

/-- The gorm `DB`, restricted to what the cacher reads/writes. -/
structure DB where
  dryRun : Bool
  error : Option GoErr
  stmt : Statement
  rowsAffected : Int

/-- Models `db.AddError`: set the error, or combine with an existing one. -/
def addError (db : DB) (e : GoErr) : DB :=
  { db with error := some (match db.error with
      | none => e
      | some e0 => GoErr.multi e0 e) }

/-- The `CacheKV` interface: pure response functions for one `Get`/`Set`
call (the store is external; calls are recorded as events by the
callbacks). -/
structure CacheKV where
  get : String → Bool × String × Option GoErr
  set : String → String → Nat → Option GoErr

/-- The `Codec` interface: `Marshal` returns (bytes-as-string, error);
`Unmarshal` merges an encoded payload into a destination and returns the
updated destination with an error. -/
structure Codec where
  marshal : Payload → String × Option GoErr
  unmarshal : String → Dest → Dest × Option GoErr

/-- The plugin name, `var Name = "gorm-cache"`. -/
def Name : String := "gorm-cache"

/-- Embeds `NewErrGormCache`: wrap a non-nil error, pass nil through. -/
def NewErrGormCache : Option GoErr → Option GoErr
  | some e => some (GoErr.gormCache e)
  | none => none

/- ===== the modelled std json codec ===== -/

/-- Unary-encoded natural number terminated by a dot. -/
def encNat (n : Nat) : List Char := List.replicate n '1' ++ ['.']

/-- Inverse of `encNat`. -/
def parseNatU : List Char → Option (Nat × List Char)
  | '1' :: cs => (parseNatU cs).map (fun p => (p.1 + 1, p.2))
  | '.' :: cs => some (0, cs)
  | _ => none

/-- Sign character followed by the unary magnitude. -/
def encInt (i : Int) : List Char :=
  (if i < 0 then '-' else '+') :: encNat i.natAbs

/-- Inverse of `encInt`. -/
def parseIntU : List Char → Option (Int × List Char)
  | '-' :: cs => (parseNatU cs).map (fun p => (-(p.1 : Int), p.2))
  | '+' :: cs => (parseNatU cs).map (fun p => ((p.1 : Int), p.2))
  | _ => none

/-- Length-prefixed raw character run. -/
def encStrRaw (s : List Char) : List Char := encNat s.length ++ s

/-- Inverse of `encStrRaw`. -/
def parseStrRaw (cs : List Char) : Option (List Char × List Char) :=
  match parseNatU cs with
  | some (n, rest) =>
      if n ≤ rest.length then some (rest.take n, rest.drop n) else none
  | none => none

/-- Rendering of one Go value.  `vFloatNaN` gets a tag the encoder never
emits on the success path, since `stdJsonMarshal` rejects NaN first. -/
def encodeValue : GoValue → List Char
  | .vNull => ['N']
  | .vBool true => ['T']
  | .vBool false => ['F']
  | .vInt i => 'I' :: encInt i
  | .vFloat x => 'D' :: encInt x
  | .vFloatNaN => ['X']
  | .vStr s => 'S' :: encStrRaw s.data

/-- Inverse of `encodeValue`. -/
def parseValue : List Char → Option (GoValue × List Char)
  | 'N' :: cs => some (.vNull, cs)
  | 'T' :: cs => some (.vBool true, cs)
  | 'F' :: cs => some (.vBool false, cs)
  | 'I' :: cs => (parseIntU cs).map (fun p => (.vInt p.1, p.2))
  | 'D' :: cs => (parseIntU cs).map (fun p => (.vFloat p.1, p.2))
  | 'X' :: cs => some (.vFloatNaN, cs)
  | 'S' :: cs => (parseStrRaw cs).map (fun p => (.vStr (String.mk p.1), p.2))
  | _ => none

/-- Rendering of one field-map entry. -/
def encodeEntry (e : String × GoValue) : List Char :=
  encStrRaw e.1.data ++ encodeValue e.2

/-- Inverse of `encodeEntry`. -/
def parseEntry (cs : List Char) : Option ((String × GoValue) × List Char) :=
  match parseStrRaw cs with
  | some (n, rest) =>
      match parseValue rest with
      | some (v, rest2) => some ((String.mk n, v), rest2)
      | none => none
  | none => none

/-- Rendering of a list of entries. -/
def encodeEntryList : List (String × GoValue) → List Char
  | [] => []
  | e :: rest => encodeEntry e ++ encodeEntryList rest

/-- Parse exactly `k` entries. -/
def parseEntries : Nat → List Char → Option (FieldMap × List Char)
  | 0, cs => some ([], cs)
  | k + 1, cs =>
      match parseEntry cs with
      | some (e, rest) => (parseEntries k rest).map (fun p => (e :: p.1, p.2))
      | none => none

/-- Rendering of one field map: entry count then entries. -/
def encodeMap (m : FieldMap) : List Char := encNat m.length ++ encodeEntryList m

/-- Inverse of `encodeMap`. -/
def parseMapU (cs : List Char) : Option (FieldMap × List Char) :=
  match parseNatU cs with
  | some (k, rest) => parseEntries k rest
  | none => none

/-- Rendering of a list of field maps. -/
def encodeMapList : List FieldMap → List Char
  | [] => []
  | m :: rest => encodeMap m ++ encodeMapList rest

/-- Parse exactly `k` field maps. -/
def parseMaps : Nat → List Char → Option (List FieldMap × List Char)
  | 0, cs => some ([], cs)
  | k + 1, cs =>
      match parseMapU cs with
      | some (m, rest) => (parseMaps k rest).map (fun p => (m :: p.1, p.2))
      | none => none

/-- Rendering of a payload: an object or an array of objects. -/
def encodePayload : Payload → List Char
  | .object m => 'O' :: encodeMap m
  | .arr ms => 'A' :: (encNat ms.length ++ encodeMapList ms)

/-- Inverse of `encodePayload`. -/
def parsePayload : List Char → Option (Payload × List Char)
  | 'O' :: cs => (parseMapU cs).map (fun p => (.object p.1, p.2))
  | 'A' :: cs =>
      match parseNatU cs with
      | some (k, rest) => (parseMaps k rest).map (fun p => (.arr p.1, p.2))
      | none => none
  | _ => none

/-- Full decode of an encoded payload string (must consume the input). -/
def decodePayload (s : String) : Option Payload :=
  match parsePayload s.data with
  | some (p, []) => some p
  | _ => none

/-- Whether a value is one `encoding/json` refuses to marshal (NaN). -/
def valueIsNaN : GoValue → Bool
  | .vFloatNaN => true
  | _ => false

/-- Whether a field map contains an unmarshalable value. -/
def mapHasNaN (m : FieldMap) : Bool := m.any (fun e => valueIsNaN e.2)

/-- Whether a payload contains an unmarshalable value. -/
def payloadHasNaN : Payload → Bool
  | .object m => mapHasNaN m
  | .arr ms => ms.any mapHasNaN

/-- Models `encoding/json.Marshal` on the map shapes `queryResult` builds:
an injective rendering of the field-value structure into a string.  The
concrete grammar differs from JSON text but preserves exactly the
information, and the error behavior (unsupported values such as NaN fail
with nil bytes), that the cache layer relies on. -/
def stdJsonMarshal (p : Payload) : String × Option GoErr :=
  if payloadHasNaN p then ("", some (.base "json: unsupported value: NaN"))
  else (String.mk (encodePayload p), none)

/-- Merging step of `json.Unmarshal` into a struct: object entries merge by field name and
leaves absent fields at the destination's pre-existing values. -/
def mergeRecord (old : Record) (m : FieldMap) : Record :=
  old.map (fun p =>
    match m.lookup p.1 with
    | some v => (p.1, v)
    | none => p)

/-- Models `encoding/json.Unmarshal` into `db.Statement.Dest`: an object
merges into a struct destination by field name; an array resets a
slice/array destination and decodes each element into a fresh zero-valued
element (a Go nil map was encoded for an all-default element and decodes,
like an empty object, to the zero element); shape mismatches and
non-struct destinations error; the destination is unchanged on error. -/
def stdJsonUnmarshalInto (s : String) (dest : Dest) : Dest × Option GoErr :=
  match decodePayload s, dest with
  | some (.object m), .single r => (.single (mergeRecord r m), none)
  | some (.arr ms), .coll z _ => (.coll z (ms.map (mergeRecord z)), none)
  | some _, d => (d, some (.base "json: cannot unmarshal into dest"))
  | none, d => (d, some (.base "json: invalid input"))

/-- The default codec: std `json.Marshal` and `json.Unmarshal`. -/
def stdJsonCodec : Codec :=
  { marshal := stdJsonMarshal
    unmarshal := stdJsonUnmarshalInto }

/- ===== the cacher ===== -/

/-- Embeds `GormCacher` (singleflight `requestGroup` omitted: the coalescing
table is only exercised by concurrent callers, outside this sequential
model). -/
structure GormCacher where
  kv : CacheKV
  queryAfterRegisterName : String
  modelNames : List String
  exp : Nat
  cacheKeyFunc : DB → String
  codec : Codec

/-- Functional options, `type Option func(*GormCacher)` (named `GOption`
here since `Option` is taken in Lean). -/
abbrev GOption := GormCacher → GormCacher

/-- Models `db.Dialector.Explain` (external dialector): renders the
statement with its parameters into one canonical string. -/
def explainSQL (sql : String) (vars : List GoValue) : String :=
  sql ++ String.mk (encNat vars.length ++ encodeEntryList (vars.map (fun v => ("", v))))

/-- The `GormCache` constructor: defaults, then the options in order. -/
def GormCache (kv : CacheKV) (exp : Nat) (options : List GOption) : GormCacher :=
  options.foldl (fun c o => o c)
    { kv := kv
      queryAfterRegisterName := Name ++ ":after_query"
      modelNames := []
      exp := exp
      cacheKeyFunc := fun db => explainSQL db.stmt.sql db.stmt.vars
      codec := stdJsonCodec }

/-- The `CacheKeyFunc` option. -/
def CacheKeyFunc (f : DB → String) : GOption :=
  fun gc => { gc with cacheKeyFunc := f }

/-- The `Models` option: each example record reduces to its canonical
element type name via `structType`; the Go `map[string]bool` keyed by
those names is modelled as the list of names (membership-equivalent). -/
def Models (models : List GoType) : GOption :=
  fun gc => { gc with modelNames := models.map (fun item => (structType item).name) }

/-- The `WithCodec` option. -/
def WithCodec (codec : Codec) : GOption :=
  fun gc => { gc with codec := codec }

/-- Embeds `canCache`: look the destination's `structType` name up in the
registered model-name set. -/
def GormCacher.canCache (g : GormCacher) (db : DB) : Bool :=
  g.modelNames.contains (structType db.stmt.destGoType).name

/-- One step of the `queryResult` field loop: `field.ValueOf` reads the
field's current value (with its is-zero flag, the comparison against the
field's zero value); a zero field is omitted, a non-zero field is stored
under its name. -/
def sparseEntry (r : Record) (f : SchemaField) : Option (String × GoValue) :=
  if (r.lookup f.name).getD f.zero == f.zero then none
  else some (f.name, (r.lookup f.name).getD f.zero)

/-- The sparse field map `queryResult` builds for one record: the
non-zero fields, keyed by field name. -/
def sparseFields (fields : Schema) (r : Record) : FieldMap :=
  fields.filterMap (sparseEntry r)

/-- Embeds `queryResult`: build the sparse field maps from the populated result
and marshal them with std json (note: `json.Marshal`, not `g.codec`).
The source iterates schema fields in the outer loop and, for slices,
elements in the inner loop, storing each non-zero field value under its
field name; per element this yields exactly the non-zero fields (a Go map
has no entry order, and an element with no non-zero fields stays a nil
map, i.e. the empty field map).  Unsupported kinds log and return
(false, "", nil). -/
def GormCacher.queryResult (g : GormCacher) (db : DB) : Bool × String × Option GoErr :=
  let fields := db.stmt.schema.getD []
  match db.stmt.dest with
  | .single r =>
      let valueData := sparseFields fields r
      let res := stdJsonCodec.marshal (.object valueData)
      (true, res.1, res.2)
  | .coll _ rs =>
      let valueArrData := rs.map (sparseFields fields)
      let res := stdJsonCodec.marshal (.arr valueArrData)
      (true, res.1, res.2)
  | .other _ =>
      -- db.Logger.Info: external logging, no effect on the result
      (false, "", none)

/-- The zero-valued record of a schema (a freshly allocated destination). -/
def zeroRecord (fields : Schema) : Record := fields.map (fun f => (f.name, f.zero))

/-- Whether every registered field of a record is at its zero value. -/
def allDefault (fields : Schema) (r : Record) : Bool :=
  fields.all (fun f => ((r.lookup f.name).getD f.zero) == f.zero)

/-- Embeds `unmarshalToDB`: std `json.Unmarshal` (not `g.codec`) into the
destination; on error `AddError` and stop; otherwise install the decoded
value and set `RowsAffected` to 1 for a struct, the decoded length for a
slice/array. -/
def GormCacher.unmarshalToDB (g : GormCacher) (cacheValue : String) (db : DB) : DB :=
  let res := stdJsonCodec.unmarshal cacheValue db.stmt.dest
  match res.2 with
  | some e => addError db e
  | none =>
      let db' := { db with stmt := { db.stmt with dest := res.1 } }
      match res.1 with
      | .single _ => { db' with rowsAffected := 1 }
      | .coll _ rs => { db' with rowsAffected := (rs.length : Int) }
      | .other _ => db'

/-- Embeds `queryFromDB`: with an empty cache key, query the connection pool
directly; with a key, run through the singleflight group — modelled for
the single (leader) caller: the closure stores the nocache marker in the
statement context and queries.  On error `AddError`; otherwise `gorm.Scan`
installs the scanned destination and row count. -/
def GormCacher.queryFromDB (g : GormCacher) (db : DB) (cachekey : String) : DB × List Event :=
  if cachekey = "" then
    match db.stmt.connPool db.stmt.sql db.stmt.vars with
    | (some e, _, _) => (addError db e, [Event.dbExec db.stmt.sql])
    | (none, dest, n) =>
        ({ db with stmt := { db.stmt with dest := dest }, rowsAffected := n },
         [Event.dbExec db.stmt.sql])
  else
    let db1 := { db with stmt := { db.stmt with ctxNocache := true } }
    match db1.stmt.connPool db1.stmt.sql db1.stmt.vars with
    | (some e, _, _) => (addError db1 e, [Event.dbExec db1.stmt.sql])
    | (none, dest, n) =>
        ({ db1 with stmt := { db1.stmt with dest := dest }, rowsAffected := n },
         [Event.dbExec db1.stmt.sql])

/-- The `query` callback (replaces gorm:query): guard dry-run/prior
error; build the SQL (external, the statement already carries it); if
cacheable, `Get` from the store — a store error fails the query, a hit
decodes, a miss executes through the coalescing path; if not cacheable,
execute directly with an empty cache key. -/
def GormCacher.query (g : GormCacher) (db : DB) : DB × List Event :=
  if db.dryRun || db.error.isSome then (db, [])
  else
    if g.canCache db then
      let cachekey := g.cacheKeyFunc db
      match g.kv.get cachekey with
      | (_, _, some e) =>
          (addError db (GoErr.gormCache e), [Event.storeGet cachekey])
      | (true, value, none) =>
          (g.unmarshalToDB value db, [Event.storeGet cachekey])
      | (false, _, none) =>
          let res := g.queryFromDB db cachekey
          (res.1, Event.storeGet cachekey :: res.2)
    else g.queryFromDB db ""

/-- The `queryAfter` callback: only a coalesced cache-miss execution (the
nocache context marker) proceeds; skip on error, nil schema or
ineligibility; encode, then `Set` with the configured expiry, wrapping any
codec or store error. -/
def GormCacher.queryAfter (g : GormCacher) (db : DB) : DB × List Event :=
  if db.stmt.ctxNocache = false then (db, [])
  else if db.error.isSome || db.stmt.schema.isNone || !(g.canCache db) then (db, [])
  else
    match g.queryResult db with
    | (false, _, _) => (db, [])
    | (true, value, err) =>
        let key := g.cacheKeyFunc db
        match err with
        | some e => (addError db (GoErr.gormCache e), [])
        | none =>
            match g.kv.set key value g.exp with
            | some e => (addError db (GoErr.gormCache e), [Event.storeSet key value])
            | none => (db, [Event.storeSet key value])

/-- One full pass of the query pipeline: the `query` callback followed by
the `queryAfter` callback, with the concatenated event trace. -/
def processQuery (g : GormCacher) (db : DB) : DB × List Event :=
  let r1 := g.query db
  let r2 := g.queryAfter r1.1
  (r2.1, r1.2 ++ r2.2)

/-- The `Initialize` callback of the gorm.Plugin interface: with no
registered model names, fail with a wrapped configuration error before
touching the callback registry; otherwise replace gorm:query and register
the after-query callback (the external registry is modelled as accepting
both).  Returns (error, names of callbacks registered, in order). -/
def GormCacher.initializePlugin (g : GormCacher) : Option GoErr × List String :=
  if g.modelNames.isEmpty then
    (NewErrGormCache (some (.base "call `Models` to add model that needs to be cached")), [])
  else
    (none, ["gorm:query", g.queryAfterRegisterName])

/-- Modelled from the spec: the encode step as section 4.3/6 describes it,
calling the configured codec's Marshal (the pluggable codec contract)
instead of the hard-wired std json. -/
def queryResultSpec (g : GormCacher) (db : DB) : Bool × String × Option GoErr :=
  let fields := db.stmt.schema.getD []
  match db.stmt.dest with
  | .single r =>
      let res := g.codec.marshal (.object (sparseFields fields r))
      (true, res.1, res.2)
  | .coll _ rs =>
      let res := g.codec.marshal (.arr (rs.map (sparseFields fields)))
      (true, res.1, res.2)
  | .other _ => (false, "", none)

/- ===== concrete fixtures used by witnesses and counterexamples ===== -/

/-- A store whose Get always misses and whose Set always succeeds. -/
def trivialKV : CacheKV :=
  { get := fun _ => (false, "", none)
    set := fun _ _ _ => none }

/-- Schema of the README's example model: Name string, Gender int. -/
def userFields : Schema := [⟨"Name", .vStr ""⟩, ⟨"Gender", .vInt 0⟩]

/-- A populated User record. -/
def mikeRec : Record := [("Name", .vStr "Mike"), ("Gender", .vInt 1)]

/-- The User model type. -/
def userType : GoType := .named "main" "User"

/-- A statement fixture over a given schema, destination and type. -/
def mkStatement (schema : Schema) (dest : Dest) (t : GoType) : Statement :=
  { sql := "SELECT * FROM users"
    vars := []
    schema := some schema
    dest := dest
    destGoType := t
    ctxNocache := false
    connPool := fun _ _ => (none, dest, 0) }

/-- A DB fixture around `mkStatement`. -/
def mkDB (schema : Schema) (dest : Dest) (t : GoType) : DB :=
  { dryRun := false, error := none, stmt := mkStatement schema dest t, rowsAffected := 0 }

/-- A cacher with only User registered, over the trivial store. -/
def gUser : GormCacher := GormCache trivialKV 5 [Models [userType]]

/-- An ineligible query: the destination type Pet was never registered. -/
def dbPet : DB := mkDB userFields (.single mikeRec) (.named "main" "Pet")

/-- The encoded payload of the populated User record. -/
def cachedUserStr : String :=
  (stdJsonCodec.marshal (.object (sparseFields userFields mikeRec))).1

/-- A store that reports a hit with the encoded User payload. -/
def hitKV : CacheKV :=
  { get := fun _ => (true, cachedUserStr, none)
    set := fun _ _ _ => none }

/-- A cacher over the hit store. -/
def gHit : GormCacher := GormCache hitKV 5 [Models [userType]]

/-- An eligible query with a zero-valued single destination. -/
def dbZeroUser : DB := mkDB userFields (.single (zeroRecord userFields)) userType

/-- A store whose Get fails. -/
def downKV : CacheKV :=
  { get := fun _ => (false, "", some (.base "redis: connection refused"))
    set := fun _ _ _ => none }

/-- A cacher over the failing store. -/
def gDown : GormCacher := GormCache downKV 5 [Models [userType]]

/-- An eligible query with a populated single destination. -/
def dbMike : DB := mkDB userFields (.single mikeRec) userType

/-- An eligible collection query: one populated and one all-default element. -/
def dbColl : DB :=
  mkDB userFields (.coll (zeroRecord userFields) [mikeRec, zeroRecord userFields]) userType

/-- A query whose destination kind is neither struct nor slice/array. -/
def dbOther : DB := mkDB userFields (.other (.vInt 7)) userType

/-- Schema with a float field. -/
def scoreFields : Schema := [⟨"Score", .vFloat 0⟩]

/-- A record holding NaN, which std json refuses to marshal. -/
def nanRec : Record := [("Score", .vFloatNaN)]

/-- A query over the NaN record. -/
def dbNaN : DB := mkDB scoreFields (.single nanRec) (.named "main" "Score")

/-- A codec that visibly differs from std json: its output carries a
CUSTOM marker and its Unmarshal requires that marker. -/
def customCodec : Codec :=
  { marshal := fun p =>
      ("CUSTOM:" ++ (stdJsonCodec.marshal p).1, (stdJsonCodec.marshal p).2)
    unmarshal := fun s d =>
      if s.data.take 7 = "CUSTOM:".data
      then stdJsonCodec.unmarshal (String.mk (s.data.drop 7)) d
      else (d, some (GoErr.base "customCodec: input lacks the CUSTOM marker")) }

/-- A cacher configured with the custom codec via WithCodec. -/
def gCustom : GormCacher := GormCache trivialKV 5 [WithCodec customCodec, Models [userType]]

/-- The encoded-form payload of the populated User record. -/
def mikePayload : Payload := .object (sparseFields userFields mikeRec)

/- ===== helper lemmas: the modelled json codec inverts its encoder ===== -/

theorem parseNatU_enc (n : Nat) (rest : List Char) :
    parseNatU (encNat n ++ rest) = some (n, rest) := by
  induction n with
  | zero => rfl
  | succ k ih =>
      have h1 : encNat (k + 1) ++ rest = '1' :: (encNat k ++ rest) := by
        simp [encNat, List.replicate_succ]
      rw [h1]
      simp only [parseNatU, ih, Option.map_some']

theorem parseIntU_enc (i : Int) (rest : List Char) :
    parseIntU (encInt i ++ rest) = some (i, rest) := by
  by_cases h : i < 0
  · have h1 : encInt i ++ rest = '-' :: (encNat i.natAbs ++ rest) := by
      simp [encInt, h]
    rw [h1]
    simp only [parseIntU, parseNatU_enc, Option.map_some']
    have h2 : -((i.natAbs : Int)) = i := by omega
    rw [h2]
  · have h1 : encInt i ++ rest = '+' :: (encNat i.natAbs ++ rest) := by
      simp [encInt, h]
    rw [h1]
    simp only [parseIntU, parseNatU_enc, Option.map_some']
    have h2 : ((i.natAbs : Int)) = i := by omega
    rw [h2]

theorem parseStrRaw_enc (s rest : List Char) :
    parseStrRaw (encStrRaw s ++ rest) = some (s, rest) := by
  have h1 : encStrRaw s ++ rest = encNat s.length ++ (s ++ rest) := by
    simp [encStrRaw]
  rw [h1]
  unfold parseStrRaw
  rw [parseNatU_enc]
  show (if s.length ≤ (s ++ rest).length then
      some ((s ++ rest).take s.length, (s ++ rest).drop s.length) else none) = some (s, rest)
  rw [if_pos (by simp), List.take_left, List.drop_left]

theorem parseValue_enc (v : GoValue) (rest : List Char) :
    parseValue (encodeValue v ++ rest) = some (v, rest) := by
  cases v with
  | vNull => rfl
  | vBool b => cases b <;> rfl
  | vInt i =>
      have h1 : encodeValue (.vInt i) ++ rest = 'I' :: (encInt i ++ rest) := by
        simp [encodeValue]
      rw [h1]
      simp only [parseValue, parseIntU_enc, Option.map_some']
  | vFloat x =>
      have h1 : encodeValue (.vFloat x) ++ rest = 'D' :: (encInt x ++ rest) := by
        simp [encodeValue]
      rw [h1]
      simp only [parseValue, parseIntU_enc, Option.map_some']
  | vFloatNaN => rfl
  | vStr s =>
      obtain ⟨d⟩ := s
      have h1 : encodeValue (.vStr ⟨d⟩) ++ rest = 'S' :: (encStrRaw d ++ rest) := by
        simp [encodeValue]
      rw [h1]
      simp only [parseValue, parseStrRaw_enc, Option.map_some']

theorem parseEntry_enc (e : String × GoValue) (rest : List Char) :
    parseEntry (encodeEntry e ++ rest) = some (e, rest) := by
  obtain ⟨n, v⟩ := e
  obtain ⟨d⟩ := n
  have h1 : encodeEntry (⟨d⟩, v) ++ rest = encStrRaw d ++ (encodeValue v ++ rest) := by
    simp [encodeEntry, List.append_assoc]
  rw [h1]
  unfold parseEntry
  rw [parseStrRaw_enc]
  show (match parseValue (encodeValue v ++ rest) with
    | some (w, rest2) => some ((String.mk d, w), rest2)
    | none => none) = some ((String.mk d, v), rest)
  rw [parseValue_enc]

theorem parseEntries_enc (m : FieldMap) (rest : List Char) :
    parseEntries m.length (encodeEntryList m ++ rest) = some (m, rest) := by
  induction m generalizing rest with
  | nil => rfl
  | cons e es ih =>
      have h1 : encodeEntryList (e :: es) ++ rest
          = encodeEntry e ++ (encodeEntryList es ++ rest) := by
        simp [encodeEntryList, List.append_assoc]
      show parseEntries (es.length + 1) (encodeEntryList (e :: es) ++ rest) = _
      rw [h1]
      simp only [parseEntries, parseEntry_enc, ih, Option.map_some']

theorem parseMapU_enc (m : FieldMap) (rest : List Char) :
    parseMapU (encodeMap m ++ rest) = some (m, rest) := by
  have h1 : encodeMap m ++ rest = encNat m.length ++ (encodeEntryList m ++ rest) := by
    simp [encodeMap, List.append_assoc]
  rw [h1]
  unfold parseMapU
  rw [parseNatU_enc]
  show parseEntries m.length (encodeEntryList m ++ rest) = some (m, rest)
  exact parseEntries_enc m rest

theorem parseMaps_enc (ms : List FieldMap) (rest : List Char) :
    parseMaps ms.length (encodeMapList ms ++ rest) = some (ms, rest) := by
  induction ms generalizing rest with
  | nil => rfl
  | cons m tl ih =>
      have h1 : encodeMapList (m :: tl) ++ rest
          = encodeMap m ++ (encodeMapList tl ++ rest) := by
        simp [encodeMapList, List.append_assoc]
      show parseMaps (tl.length + 1) (encodeMapList (m :: tl) ++ rest) = _
      rw [h1]
      simp only [parseMaps, parseMapU_enc, ih, Option.map_some']

theorem parsePayload_enc (p : Payload) (rest : List Char) :
    parsePayload (encodePayload p ++ rest) = some (p, rest) := by
  cases p with
  | object m =>
      have h1 : encodePayload (.object m) ++ rest = 'O' :: (encodeMap m ++ rest) := by
        simp [encodePayload]
      rw [h1]
      simp only [parsePayload, parseMapU_enc, Option.map_some']
  | arr ms =>
      have h1 : encodePayload (.arr ms) ++ rest
          = 'A' :: (encNat ms.length ++ (encodeMapList ms ++ rest)) := by
        simp [encodePayload, List.append_assoc]
      rw [h1]
      simp only [parsePayload]
      rw [parseNatU_enc]
      simp only [parseMaps_enc, Option.map_some']

theorem decodePayload_enc (p : Payload) :
    decodePayload (String.mk (encodePayload p)) = some p := by
  have h := parsePayload_enc p []
  rw [List.append_nil] at h
  unfold decodePayload
  show (match parsePayload (encodePayload p) with
    | some (q, []) => some q
    | _ => none) = some p
  rw [h]

/- ===== helper lemmas: sparse encode / merge decode round-trip ===== -/

theorem lookup_eq_none_of_names (m : FieldMap) (a : String)
    (h : ∀ e ∈ m, e.1 ≠ a) : m.lookup a = none := by
  induction m with
  | nil => rfl
  | cons e es ih =>
      obtain ⟨k, b⟩ := e
      have hk : (a == k) = false := by
        have hne : k ≠ a := h (k, b) (by simp)
        simpa using Ne.symm hne
      rw [List.lookup_cons, hk]
      exact ih (fun e he => h e (by simp [he]))

theorem sparse_name_mem (fields : Schema) (r : Record) :
    ∀ e ∈ sparseFields fields r, e.1 ∈ fields.map SchemaField.name := by
  intro e he
  rw [sparseFields, List.mem_filterMap] at he
  obtain ⟨f, hf, hfe⟩ := he
  rw [sparseEntry] at hfe
  split at hfe
  · exact absurd hfe (by simp)
  · cases hfe
    exact List.mem_map_of_mem _ hf

theorem sparseEntry_skip (rv : Record) (a : String) (v : GoValue) (f : SchemaField)
    (h : f.name ≠ a) : sparseEntry ((a, v) :: rv) f = sparseEntry rv f := by
  have hk : (f.name == a) = false := by simpa using h
  unfold sparseEntry
  simp only [List.lookup_cons, hk]

theorem mergeRecord_skip (zs : Record) (a : String) (v : GoValue) (m : FieldMap)
    (h : ∀ z ∈ zs, z.1 ≠ a) : mergeRecord zs ((a, v) :: m) = mergeRecord zs m := by
  unfold mergeRecord
  apply List.map_congr_left
  intro z hz
  have hk : (z.1 == a) = false := by simpa using h z hz
  simp only [List.lookup_cons, hk]

theorem merge_sparse_roundtrip (fields : Schema) (r : Record)
    (hAlign : r.map Prod.fst = fields.map SchemaField.name)
    (hnodup : (fields.map SchemaField.name).Nodup) :
    mergeRecord (zeroRecord fields) (sparseFields fields r) = r := by
  induction fields generalizing r with
  | nil =>
      have hr : r = [] := by
        have : r.map Prod.fst = [] := by simpa using hAlign
        simpa using List.map_eq_nil.mp this
      subst hr
      rfl
  | cons f fs ih =>
      cases r with
      | nil => simp at hAlign
      | cons p rv =>
          obtain ⟨a, v⟩ := p
          simp only [List.map_cons, List.cons.injEq] at hAlign
          obtain ⟨ha, hAlign'⟩ := hAlign
          simp only [List.map_cons, List.nodup_cons] at hnodup
          obtain ⟨hnotin, hnodup'⟩ := hnodup
          subst ha
          have hskip : ∀ gg ∈ fs, SchemaField.name gg ≠ f.name := fun gg hgg hne =>
            hnotin (hne ▸ List.mem_map_of_mem SchemaField.name hgg)
          have hhead : sparseEntry ((f.name, v) :: rv) f =
              if v == f.zero then none else some (f.name, v) := by
            unfold sparseEntry
            simp only [List.lookup_cons, beq_self_eq_true, Option.getD_some]
          have htail : fs.filterMap (sparseEntry ((f.name, v) :: rv)) = sparseFields fs rv := by
            unfold sparseFields
            exact List.filterMap_congr fun gg hgg => sparseEntry_skip rv f.name v gg (hskip gg hgg)
          have hsparse : sparseFields (f :: fs) ((f.name, v) :: rv) =
              (if v == f.zero then ([] : FieldMap) else [(f.name, v)]) ++ sparseFields fs rv := by
            unfold sparseFields
            rw [List.filterMap_cons, hhead]
            unfold sparseFields at htail
            rw [htail]
            by_cases hz : v == f.zero
            · simp [hz]
            · simp [hz]
          have hzs : ∀ z ∈ zeroRecord fs, z.1 ≠ f.name := by
            intro z hz
            rw [zeroRecord, List.mem_map] at hz
            obtain ⟨gg, hgg, rfl⟩ := hz
            exact hskip gg hgg
          have hzrec : zeroRecord (f :: fs) = (f.name, f.zero) :: zeroRecord fs := rfl
          by_cases hz : v == f.zero
          · have hv : v = f.zero := by simpa using hz
            rw [hsparse, if_pos hz, List.nil_append, hzrec]
            have hnone : (sparseFields fs rv).lookup f.name = none :=
              lookup_eq_none_of_names _ _ (fun e he hne =>
                hnotin (hne ▸ sparse_name_mem fs rv e he))
            unfold mergeRecord
            simp only [List.map_cons, hnone]
            have ht := ih rv hAlign' hnodup'
            unfold mergeRecord at ht
            rw [ht, hv]
          · have hhit : ((f.name, v) :: sparseFields fs rv).lookup f.name = some v := by
              simp [List.lookup_cons]
            rw [hsparse, if_neg hz, List.singleton_append, hzrec]
            have hm := mergeRecord_skip (zeroRecord fs) f.name v (sparseFields fs rv) hzs
            unfold mergeRecord
            unfold mergeRecord at hm
            simp only [List.map_cons, hhit]
            rw [hm]
            have ht := ih rv hAlign' hnodup'
            unfold mergeRecord at ht
            rw [ht]

theorem sparse_nil_of_allDefault (fields : Schema) (r : Record)
    (h : allDefault fields r = true) : sparseFields fields r = [] := by
  unfold allDefault at h
  rw [List.all_eq_true] at h
  unfold sparseFields
  induction fields with
  | nil => rfl
  | cons f fs ih =>
      rw [List.filterMap_cons]
      have hz := h f (by simp)
      rw [sparseEntry, if_pos hz]
      exact ih (fun g hg => h g (by simp [hg]))

/- ===== helper lemmas: callback flow ===== -/

theorem queryFromDB_empty_key (g : GormCacher) (db : DB) :
    (g.queryFromDB db "").2 = [Event.dbExec db.stmt.sql] ∧
    (g.queryFromDB db "").1.stmt.destGoType = db.stmt.destGoType := by
  unfold GormCacher.queryFromDB
  rw [if_pos rfl]
  split
  · simp [addError]
  · simp

theorem queryAfter_skip_ineligible (g : GormCacher) (db : DB)
    (h : g.canCache db = false) : g.queryAfter db = (db, []) := by
  unfold GormCacher.queryAfter
  rw [h]
  by_cases hctx : db.stmt.ctxNocache = false
  · rw [if_pos hctx]
  · rw [if_neg hctx]
    simp

/- ===== the claims ===== -/

/-- C2: for a query whose destination record type name is not registered,
processing the query (the query callback followed by the queryAfter
callback) performs no store Get and no store Set; when the dry-run/error
guard passes, the trace is exactly one direct execution of the underlying
query. -/
theorem c2_ineligible_no_store_calls (g : GormCacher) (db : DB)
    (h : g.canCache db = false) :
    ((processQuery g db).2.all (fun e => !e.isStore)) = true ∧
    (db.dryRun = false → db.error = none →
      (processQuery g db).2 = [Event.dbExec db.stmt.sql]) := by
  simp only [processQuery]
  unfold GormCacher.query
  by_cases hguard : (db.dryRun || db.error.isSome) = true
  · rw [if_pos hguard]
    rw [queryAfter_skip_ineligible g db h]
    refine ⟨rfl, ?_⟩
    intro h1 h2
    rw [h1, h2] at hguard
    simp at hguard
  · rw [if_neg hguard, h]
    simp only [Bool.false_eq_true, if_false]
    have hinv := (queryFromDB_empty_key g db).2
    have h' : g.canCache (g.queryFromDB db "").1 = false := by
      unfold GormCacher.canCache at h ⊢
      rw [hinv]
      exact h
    rw [queryAfter_skip_ineligible g _ h']
    have hev := (queryFromDB_empty_key g db).1
    rw [hev]
    exact ⟨rfl, fun _ _ => rfl⟩

/-- C2 witness: a Pet-typed query against a cacher that registered only
User triggers no store call and one direct execution. -/
theorem c2_ineligible_no_store_calls_witness :
    gUser.canCache dbPet = false ∧
    ((processQuery gUser dbPet).2.all (fun e => !e.isStore)) = true ∧
    (processQuery gUser dbPet).2 = [Event.dbExec dbPet.stmt.sql] :=
  ⟨by decide, (c2_ineligible_no_store_calls gUser dbPet (by decide)).1,
   (c2_ineligible_no_store_calls gUser dbPet (by decide)).2 rfl rfl⟩

/-- C4: on an eligible query whose store Get reports found with no error
and whose payload decodes, the query callback decodes into the
destination, sets RowsAffected to 1 for a struct destination and to the
decoded element count for a slice/array destination, leaves no error, and
never executes the underlying query (the trace is the single Get). -/
theorem c4_cache_hit (g : GormCacher) (db : DB) (v : String) (dest' : Dest)
    (hdr : db.dryRun = false) (herr : db.error = none)
    (hc : g.canCache db = true)
    (hget : g.kv.get (g.cacheKeyFunc db) = (true, v, none))
    (hdec : stdJsonCodec.unmarshal v db.stmt.dest = (dest', none)) :
    (g.query db).2 = [Event.storeGet (g.cacheKeyFunc db)] ∧
    (g.query db).1.stmt.dest = dest' ∧
    (g.query db).1.error = none ∧
    (∀ r, dest' = Dest.single r → (g.query db).1.rowsAffected = 1) ∧
    (∀ z rs, dest' = Dest.coll z rs → (g.query db).1.rowsAffected = (rs.length : Int)) := by
  have hquery : g.query db = (g.unmarshalToDB v db, [Event.storeGet (g.cacheKeyFunc db)]) := by
    unfold GormCacher.query
    rw [hdr, herr]
    simp only [Option.isSome_none, Bool.or_self, Bool.false_eq_true, if_false]
    rw [hc]
    simp only [if_true]
    rw [hget]
  rw [hquery]
  unfold GormCacher.unmarshalToDB
  rw [hdec]
  cases dest' with
  | single r =>
      refine ⟨rfl, rfl, herr, ?_, ?_⟩
      · intro r' _
        rfl
      · intro z rs h2
        simp at h2
  | coll z rs =>
      refine ⟨rfl, rfl, herr, ?_, ?_⟩
      · intro r' h2
        simp at h2
      · intro z' rs' h2
        injection h2 with h3 h4
        subst h3
        subst h4
        rfl
  | other w =>
      refine ⟨rfl, rfl, herr, ?_, ?_⟩
      · intro r' h2
        simp at h2
      · intro z' rs' h2
        simp at h2

/-- C4 witness: a hit on the encoded User payload decodes to the
populated record, sets RowsAffected to 1, and performs no execution. -/
theorem c4_cache_hit_witness :
    (gHit.query dbZeroUser).2 = [Event.storeGet (gHit.cacheKeyFunc dbZeroUser)] ∧
    (gHit.query dbZeroUser).1.stmt.dest = Dest.single mikeRec ∧
    (gHit.query dbZeroUser).1.error = none ∧
    (gHit.query dbZeroUser).1.rowsAffected = 1 := by
  have h := c4_cache_hit gHit dbZeroUser cachedUserStr (Dest.single mikeRec)
    rfl rfl (by decide) (by decide) (by decide)
  exact ⟨h.1, h.2.1, h.2.2.1, h.2.2.2.1 mikeRec rfl⟩

/-- C5: on an eligible query whose store Get returns a non-nil error, the
query callback terminates with that error wrapped as a cache-layer error
and does not fall back to executing the underlying query (the trace is
the single Get). -/
theorem c5_get_error_fails (g : GormCacher) (db : DB) (found : Bool) (v : String) (e : GoErr)
    (hdr : db.dryRun = false) (herr : db.error = none)
    (hc : g.canCache db = true)
    (hget : g.kv.get (g.cacheKeyFunc db) = (found, v, some e)) :
    (g.query db).1.error = some (GoErr.gormCache e) ∧
    (g.query db).2 = [Event.storeGet (g.cacheKeyFunc db)] := by
  unfold GormCacher.query
  rw [hdr, herr]
  simp only [Option.isSome_none, Bool.or_self, Bool.false_eq_true, if_false]
  rw [hc]
  simp only [if_true]
  rw [hget]
  simp [addError, herr]

/-- C5 witness: a failing store Get surfaces the wrapped error with no
fallback execution. -/
theorem c5_get_error_fails_witness :
    (gDown.query dbMike).1.error
      = some (GoErr.gormCache (GoErr.base "redis: connection refused")) ∧
    (gDown.query dbMike).2 = [Event.storeGet (gDown.cacheKeyFunc dbMike)] :=
  c5_get_error_fails gDown dbMike false "" (GoErr.base "redis: connection refused")
    rfl rfl (by decide) rfl

/-- C6: encoding a record of a registered type with queryResult (the
sparse field map) and decoding the payload with the std codec used by
unmarshalToDB into a zero-valued destination of the same type yields the
original record: equal on every non-default field, default on every field
the original had at its zero value. -/
theorem c6_single_roundtrip (g : GormCacher) (db : DB) (fields : Schema) (r : Record)
    (hschema : db.stmt.schema = some fields)
    (hdest : db.stmt.dest = Dest.single r)
    (hAlign : r.map Prod.fst = fields.map SchemaField.name)
    (hnodup : (fields.map SchemaField.name).Nodup)
    (hnan : payloadHasNaN (Payload.object (sparseFields fields r)) = false) :
    (g.queryResult db).1 = true ∧ (g.queryResult db).2.2 = none ∧
    stdJsonCodec.unmarshal (g.queryResult db).2.1 (Dest.single (zeroRecord fields))
      = (Dest.single r, none) := by
  have hq : g.queryResult db =
      (true, String.mk (encodePayload (.object (sparseFields fields r))), none) := by
    unfold GormCacher.queryResult
    rw [hschema, hdest]
    simp only [Option.getD_some]
    show (true, (stdJsonCodec.marshal (.object (sparseFields fields r))).1,
      (stdJsonCodec.marshal (.object (sparseFields fields r))).2) = _
    show (true, (stdJsonMarshal (.object (sparseFields fields r))).1,
      (stdJsonMarshal (.object (sparseFields fields r))).2) = _
    unfold stdJsonMarshal
    rw [hnan]
    simp
  rw [hq]
  refine ⟨rfl, rfl, ?_⟩
  show stdJsonUnmarshalInto (String.mk (encodePayload (.object (sparseFields fields r))))
    (Dest.single (zeroRecord fields)) = (Dest.single r, none)
  unfold stdJsonUnmarshalInto
  rw [decodePayload_enc]
  show (Dest.single (mergeRecord (zeroRecord fields) (sparseFields fields r)), none) = _
  rw [merge_sparse_roundtrip fields r hAlign hnodup]

/-- C6 witness: the populated User record round-trips through encode and
decode into a zero destination. -/
theorem c6_single_roundtrip_witness :
    (gUser.queryResult dbMike).1 = true ∧ (gUser.queryResult dbMike).2.2 = none ∧
    stdJsonCodec.unmarshal (gUser.queryResult dbMike).2.1
      (Dest.single (zeroRecord userFields)) = (Dest.single mikeRec, none) :=
  c6_single_roundtrip gUser dbMike userFields mikeRec rfl rfl (by decide) (by decide) (by decide)

/-- C7: encoding a collection preserves element count and order — the
payload is the ordered list of per-element sparse maps, one per element,
and decoding into a zero collection destination restores the original
elements in order; an all-default element is encoded as the empty field
map at its position, not dropped. -/
theorem c7_collection_roundtrip (g : GormCacher) (db : DB) (fields : Schema) (rs : List Record)
    (hschema : db.stmt.schema = some fields)
    (hdest : db.stmt.dest = Dest.coll (zeroRecord fields) rs)
    (hAlign : ∀ r ∈ rs, r.map Prod.fst = fields.map SchemaField.name)
    (hnodup : (fields.map SchemaField.name).Nodup)
    (hnan : payloadHasNaN (Payload.arr (rs.map (sparseFields fields))) = false) :
    (g.queryResult db).1 = true ∧ (g.queryResult db).2.2 = none ∧
    decodePayload (g.queryResult db).2.1 = some (Payload.arr (rs.map (sparseFields fields))) ∧
    (rs.map (sparseFields fields)).length = rs.length ∧
    stdJsonCodec.unmarshal (g.queryResult db).2.1 (Dest.coll (zeroRecord fields) [])
      = (Dest.coll (zeroRecord fields) rs, none) ∧
    (∀ r ∈ rs, allDefault fields r = true → sparseFields fields r = []) := by
  have hq : g.queryResult db =
      (true, String.mk (encodePayload (.arr (rs.map (sparseFields fields)))), none) := by
    unfold GormCacher.queryResult
    rw [hschema, hdest]
    simp only [Option.getD_some]
    show (true, (stdJsonCodec.marshal (.arr (rs.map (sparseFields fields)))).1,
      (stdJsonCodec.marshal (.arr (rs.map (sparseFields fields)))).2) = _
    show (true, (stdJsonMarshal (.arr (rs.map (sparseFields fields)))).1,
      (stdJsonMarshal (.arr (rs.map (sparseFields fields)))).2) = _
    unfold stdJsonMarshal
    rw [hnan]
    simp
  rw [hq]
  refine ⟨rfl, rfl, decodePayload_enc _, by simp, ?_,
    fun r _ hd => sparse_nil_of_allDefault fields r hd⟩
  show stdJsonUnmarshalInto (String.mk (encodePayload (.arr (rs.map (sparseFields fields)))))
    (Dest.coll (zeroRecord fields) []) = (Dest.coll (zeroRecord fields) rs, none)
  unfold stdJsonUnmarshalInto
  rw [decodePayload_enc]
  show (Dest.coll (zeroRecord fields)
    ((rs.map (sparseFields fields)).map (mergeRecord (zeroRecord fields))), none) = _
  rw [List.map_map]
  have hmap : rs.map (mergeRecord (zeroRecord fields) ∘ sparseFields fields) = rs := by
    have h2 : ∀ r ∈ rs, (mergeRecord (zeroRecord fields) ∘ sparseFields fields) r = id r :=
      fun r hr => merge_sparse_roundtrip fields r (hAlign r hr) hnodup
    rw [List.map_congr_left h2, List.map_id]
  rw [hmap]

/-- C7 witness: a two-element collection with one all-default element
round-trips with count and order preserved, the all-default element
encoded as the empty map in place. -/
theorem c7_collection_roundtrip_witness :
    (gUser.queryResult dbColl).1 = true ∧ (gUser.queryResult dbColl).2.2 = none ∧
    decodePayload (gUser.queryResult dbColl).2.1
      = some (Payload.arr [sparseFields userFields mikeRec, []]) ∧
    stdJsonCodec.unmarshal (gUser.queryResult dbColl).2.1
      (Dest.coll (zeroRecord userFields) [])
      = (Dest.coll (zeroRecord userFields) [mikeRec, zeroRecord userFields], none) := by
  have h := c7_collection_roundtrip gUser dbColl userFields [mikeRec, zeroRecord userFields]
    rfl rfl (by decide) (by decide) (by decide)
  refine ⟨h.1, h.2.1, ?_, h.2.2.2.2.1⟩
  have h3 := h.2.2.1
  have hlist : [mikeRec, zeroRecord userFields].map (sparseFields userFields)
      = [sparseFields userFields mikeRec, []] := by decide
  rw [hlist] at h3
  exact h3

/-- C8 counterexample: with a NaN field value, queryResult returns
ok = true together with a non-nil marshal error, contradicting the claim
that ok = true is never combined with a non-nil error. -/
theorem c8_counterexample :
    (gUser.queryResult dbNaN).1 = true ∧ (gUser.queryResult dbNaN).2.2 ≠ none := by
  decide

/-- C8 (amended): queryResult returns ok = false exactly for destination
kinds that are neither struct nor slice/array, and then with an empty
payload and a nil error (a soft skip); in the struct and slice/array
cases it returns ok = true together with the marshal outcome, so a
marshal failure yields ok = true alongside a non-nil error (the caller
checks the error after the ok flag). -/
theorem c8_soft_skip_amended (g : GormCacher) (db : DB) :
    ((g.queryResult db).1 = false ↔ ∃ w, db.stmt.dest = Dest.other w) ∧
    ((g.queryResult db).1 = false → g.queryResult db = (false, "", none)) ∧
    (∀ r, db.stmt.dest = Dest.single r →
      (g.queryResult db).2 =
        stdJsonCodec.marshal (Payload.object (sparseFields (db.stmt.schema.getD []) r))) ∧
    (∀ z rs, db.stmt.dest = Dest.coll z rs →
      (g.queryResult db).2 =
        stdJsonCodec.marshal (Payload.arr (rs.map (sparseFields (db.stmt.schema.getD []))))) := by
  rcases hdd : db.stmt.dest with r | ⟨z, rs⟩ | w
  · have hq : g.queryResult db =
        (true, (stdJsonCodec.marshal (.object (sparseFields (db.stmt.schema.getD []) r))).1,
         (stdJsonCodec.marshal (.object (sparseFields (db.stmt.schema.getD []) r))).2) := by
      unfold GormCacher.queryResult
      rw [hdd]
    refine ⟨?_, ?_, ?_, ?_⟩
    · rw [hq]
      simp [hdd]
    · rw [hq]
      simp
    · intro r' hr'
      injection hr' with h3
      subst h3
      rw [hq]
    · intro z' rs' h2
      simp at h2
  · have hq : g.queryResult db =
        (true, (stdJsonCodec.marshal (.arr (rs.map (sparseFields (db.stmt.schema.getD []))))).1,
         (stdJsonCodec.marshal (.arr (rs.map (sparseFields (db.stmt.schema.getD []))))).2) := by
      unfold GormCacher.queryResult
      rw [hdd]
    refine ⟨?_, ?_, ?_, ?_⟩
    · rw [hq]
      simp [hdd]
    · rw [hq]
      simp
    · intro r' hr'
      simp at hr'
    · intro z' rs' h2
      injection h2 with h3 h4
      subst h3
      subst h4
      rw [hq]
  · have hq : g.queryResult db = (false, "", none) := by
      unfold GormCacher.queryResult
      rw [hdd]
    refine ⟨?_, ?_, ?_, ?_⟩
    · rw [hq]
      simp [hdd]
    · intro _
      exact hq
    · intro r' hr'
      simp at hr'
    · intro z' rs' h2
      simp at h2

/-- C8 witness: an unsupported destination kind yields the soft skip
(false, empty payload, nil error). -/
theorem c8_soft_skip_amended_witness :
    gUser.queryResult dbOther = (false, "", none) :=
  (c8_soft_skip_amended gUser dbOther).2.1 (by decide)

/-- C9: with no registered model names, the Initialize callback of the
gorm.Plugin interface returns the wrapped configuration error before
registering any callback (the registration list is empty). -/
theorem c9_empty_models (g : GormCacher) (h : g.modelNames = []) :
    g.initializePlugin =
      (some (GoErr.gormCache
        (GoErr.base "call `Models` to add model that needs to be cached")), []) := by
  unfold GormCacher.initializePlugin
  rw [h]
  rfl

/-- C9 witness: a cacher constructed without any Models option fails
initialization with the wrapped error and registers nothing. -/
theorem c9_empty_models_witness :
    (GormCache trivialKV 5 []).initializePlugin =
      (some (GoErr.gormCache
        (GoErr.base "call `Models` to add model that needs to be cached")), []) :=
  c9_empty_models (GormCache trivialKV 5 []) rfl

/-- C10: with one model registered, eligibility is decided solely by the
bare (package-less) name of the destination's element type after
`structType` unwraps pointer/slice/array indirection — in particular a
distinct type with the same bare name from another package is treated as
cacheable, since the right-hand side does not mention the package path. -/
theorem c10_name_only_eligibility (kv : CacheKV) (exp : Nat) (p n : String) (db : DB) :
    (GormCache kv exp [Models [GoType.named p n]]).canCache db
      = ((structType db.stmt.destGoType).name == n) := by
  unfold GormCacher.canCache GormCache Models
  simp [structType, stripPtr, structTypeLoop, List.contains]
  rw [show (GoType.named p n).name = n from rfl, Bool.beq_eq_decide_eq]

/-- C1 (code bug): queryResult and unmarshalToDB do not use the codec
configured via WithCodec — even though gCustom carries customCodec, the
encode output is exactly the std json output, differs from the configured
codec's output and from the spec-modelled codec-using encode step, and
the decode step accepts a std-encoded payload that the configured codec's
Unmarshal rejects. -/
theorem c1_codec_ignored :
    gCustom.codec = customCodec ∧
    (gCustom.queryResult dbMike).2.1 = (stdJsonCodec.marshal mikePayload).1 ∧
    (gCustom.codec.marshal mikePayload).1
      = "CUSTOM:" ++ (stdJsonCodec.marshal mikePayload).1 ∧
    (gCustom.queryResult dbMike).2.1 ≠ (gCustom.codec.marshal mikePayload).1 ∧
    gCustom.queryResult dbMike ≠ queryResultSpec gCustom dbMike ∧
    (gCustom.unmarshalToDB (stdJsonCodec.marshal mikePayload).1 dbMike).error = none ∧
    (gCustom.codec.unmarshal (stdJsonCodec.marshal mikePayload).1 dbMike.stmt.dest).2 ≠ none :=
  ⟨rfl, by decide, by decide, by decide, by decide, by decide, by decide⟩
